import Mathlib

/-
Verification of the ai_chat front-end core: the citation-annotated message
renderer (src/ai_chat/web/src/components/Message.tsx, renderContent), the
replace-based renderer variant (src/frontend/src/components/MessageList.tsx,
renderMessageContent), and the document-status poller
(pollDocumentStatus, recursive setTimeout loop).

Strings are modelled as `List Char`; JS numbers on the relevant paths are
non-negative integers and are modelled as `Nat`.
-/

namespace AiChat

/-- Citation record, as in the TS interface of Message.tsx:
`{ text, document_id, segment_id, index }`. -/
structure Citation where
  text : List Char
  document_id : Nat
  segment_id : Nat
  index : Nat
deriving DecidableEq

/-- One rendered unit: plain text (a `<span>`/`Text` piece) or a citation
reference (the `Tooltip`-wrapped marker) carrying the original bracket text
and the resolved citation. -/
inductive Segment where
  | plain (text : List Char)
  | citationRef (displayText : List Char) (citation : Citation)
deriving DecidableEq

/-- The display text of a segment (what the browser shows for it). -/
def Segment.text : Segment → List Char
  | Segment.plain t => t
  | Segment.citationRef t _ => t

/-- Match of the regex `\[(\d+)\]` at the head of the input, as the JS engine
finds it: a literal opening bracket, one or more ASCII digits (greedy), a
literal closing bracket. On success returns the captured digits and the rest
of the input after the marker. -/
def matchMarker (l : List Char) : Option (List Char × List Char) :=
  match l with
  | [] => none
  | c :: rest =>
    if c = '[' ∧ rest.takeWhile Char.isDigit ≠ [] ∧
        (rest.dropWhile Char.isDigit).head? = some ']' then
      some (rest.takeWhile Char.isDigit, (rest.dropWhile Char.isDigit).tail)
    else none

/-- The JS `content.split(/(\[\d+\])/)`: partition the input into the pieces
between markers and the markers themselves (the capture group keeps the
delimiters), preserving empty pieces at the boundaries exactly as JS does.
`fuel` bounds the recursion; `fuel ≥ l.length` suffices since every step
consumes at least one character. -/
def splitGoF : Nat → List Char → List Char → List (List Char)
  | 0, acc, _ => [acc.reverse]
  | _ + 1, acc, [] => [acc.reverse]
  | fuel + 1, acc, c :: cs =>
    match matchMarker (c :: cs) with
    | some (ds, after) =>
        acc.reverse :: ('[' :: (ds ++ [']'])) :: splitGoF fuel [] after
    | none => splitGoF fuel (c :: acc) cs

/-- `content.split(/(\[\d+\])/)` on the whole content. -/
def splitParts (content : List Char) : List (List Char) :=
  splitGoF content.length [] content

/-- The JS `part.match(/\[(\d+)\]/)`, returning the first capture group of the
leftmost match, or `none` when the part contains no marker. -/
def findMarker : List Char → Option (List Char)
  | [] => none
  | c :: cs =>
    match matchMarker (c :: cs) with
    | some (ds, _) => some ds
    | none => findMarker cs

/-- `parseInt` on a non-empty ASCII digit string. -/
def parseDigits (ds : List Char) : Nat :=
  ds.foldl (fun n c => n * 10 + (c.toNat - 48)) 0

/-- The body of `parts.map` in renderContent: re-match the part against
`\[(\d+)\]`; on a match, look the parsed number up with
`citations.find(c => c.index === citationIndex)` and emit a citation
reference when found; otherwise emit the part as plain text. -/
def renderPart (citations : List Citation) (part : List Char) : Segment :=
  match findMarker part with
  | none => Segment.plain part
  | some ds =>
    match citations.find? (fun c => c.index == parseDigits ds) with
    | some c => Segment.citationRef part c
    | none => Segment.plain part

/-- `renderContent` of Message.tsx: with no citations the whole content is
returned as a single plain text node; otherwise the content is split on
citation markers and each piece is rendered by `renderPart`. -/
def renderContent (content : List Char) (citations : List Citation) : List Segment :=
  if citations.isEmpty then [Segment.plain content]
  else (splitParts content).map (renderPart citations)

/-- Concatenated display text of a segment list. -/
def renderedText (segs : List Segment) : List Char :=
  (segs.map Segment.text).flatten

theorem matchMarker_eq_some {l ds after : List Char}
    (h : matchMarker l = some (ds, after)) :
    l = '[' :: (ds ++ ']' :: after) := by
  cases l with
  | nil => simp [matchMarker] at h
  | cons c rest =>
    simp only [matchMarker] at h
    split at h
    · rename_i hc
      obtain ⟨hc1, hc2, hc3⟩ := hc
      have h2 := Option.some.inj h
      have hds : rest.takeWhile Char.isDigit = ds := congrArg Prod.fst h2
      have hafter : (rest.dropWhile Char.isDigit).tail = after := congrArg Prod.snd h2
      subst hc1
      cases hd : rest.dropWhile Char.isDigit with
      | nil => rw [hd] at hc3; simp at hc3
      | cons d t =>
        rw [hd] at hc3 hafter
        simp only [List.head?_cons, Option.some.injEq] at hc3
        simp only [List.tail_cons] at hafter
        have hrest : rest.takeWhile Char.isDigit ++ rest.dropWhile Char.isDigit = rest := by
          simp
        rw [hd, hds, hc3, hafter] at hrest
        rw [← hrest]
    · simp at h

theorem splitGoF_flatten :
    ∀ (fuel : Nat) (l acc : List Char), l.length ≤ fuel →
      (splitGoF fuel acc l).flatten = acc.reverse ++ l := by
  intro fuel
  induction fuel with
  | zero =>
    intro l acc hl
    have hnil : l = [] := by
      cases l with
      | nil => rfl
      | cons c cs => simp at hl
    subst hnil
    simp [splitGoF]
  | succ n ih =>
    intro l acc hl
    cases l with
    | nil => simp [splitGoF]
    | cons c cs =>
      cases hm : matchMarker (c :: cs) with
      | none =>
        simp only [splitGoF, hm]
        rw [ih cs (c :: acc) (by simpa using Nat.le_of_succ_le_succ hl)]
        simp
      | some p =>
        obtain ⟨ds, after⟩ := p
        have hEq := matchMarker_eq_some hm
        have hlen : after.length ≤ n := by
          have hlE := congrArg List.length hEq
          simp at hlE
          simp at hl
          omega
        simp only [splitGoF, hm]
        rw [List.flatten_cons, List.flatten_cons, ih after [] hlen]
        rw [hEq]
        simp

theorem splitParts_flatten (content : List Char) :
    (splitParts content).flatten = content := by
  have h := splitGoF_flatten content.length content [] (Nat.le_refl _)
  simpa [splitParts] using h

theorem renderPart_text (cits : List Citation) (part : List Char) :
    (renderPart cits part).text = part := by
  cases h1 : findMarker part with
  | none => simp [renderPart, h1, Segment.text]
  | some ds =>
    cases h2 : cits.find? (fun c => c.index == parseDigits ds) with
    | none => simp [renderPart, h1, h2, Segment.text]
    | some c => simp [renderPart, h1, h2, Segment.text]

/-- Claim C1: for every content string and every citation list, concatenating
in order the text of all segments produced by the citation renderer (the
displayText of citationRef segments and the text of plain segments)
reproduces the content string exactly. -/
theorem c1_round_trip (content : List Char) (cits : List Citation) :
    renderedText (renderContent content cits) = content := by
  unfold renderContent
  by_cases h : cits.isEmpty = true
  · simp [h, renderedText, Segment.text]
  · rw [if_neg h]
    unfold renderedText
    rw [List.map_map]
    have hfun : Segment.text ∘ renderPart cits = id := by
      funext p
      exact renderPart_text cits p
    rw [hfun, List.map_id, splitParts_flatten]

/-- Claim C3 counterexample: with an EMPTY citation list the renderer takes
the early-return branch and yields the whole content as ONE plain segment,
not the three segments the claim states. -/
theorem c3_counterexample :
    renderContent "see [5] here".toList [] ≠
      [Segment.plain "see ".toList, Segment.plain "[5]".toList,
       Segment.plain " here".toList] := by
  decide

/-- Claim C3 (amended): rendering "see [5] here" with an empty citation list
yields the single segment Plain("see [5] here") — the renderer returns the
whole content as one plain segment whenever the citation list is empty; with
a nonempty citation list containing no citation of index 5, it yields exactly
Plain("see "), Plain("[5]"), Plain(" here"), with "[5]" not treated as a
citation reference because no citation with index 5 exists. -/
theorem c3_amended :
    renderContent "see [5] here".toList [] = [Segment.plain "see [5] here".toList] ∧
    renderContent "see [5] here".toList [⟨"src".toList, 7, 2, 1⟩] =
      [Segment.plain "see ".toList, Segment.plain "[5]".toList,
       Segment.plain " here".toList] := by
  decide

/-- Claim C4: every marker "[N]" whose parsed number is the index of a
citation found in the list is emitted as a citationRef segment carrying the
original bracket text and that citation; resolution goes through the
citation's index field, regardless of the markers' textual order. In
particular render("A[1]B", [(index 1, "src", 7, 2)]) yields
[Plain("A"), CitationRef("[1]", citation), Plain("B")], and "[2] then [1]"
with citations of index 1 and 2 resolves each marker to its own citation. -/
theorem c4_matched_markers :
    (∀ (cits : List Citation) (part ds : List Char) (c : Citation),
      findMarker part = some ds →
      cits.find? (fun x => x.index == parseDigits ds) = some c →
      renderPart cits part = Segment.citationRef part c) ∧
    renderContent "A[1]B".toList [⟨"src".toList, 7, 2, 1⟩] =
      [Segment.plain "A".toList,
       Segment.citationRef "[1]".toList ⟨"src".toList, 7, 2, 1⟩,
       Segment.plain "B".toList] ∧
    renderContent "[2] then [1]".toList
        [⟨"one".toList, 7, 2, 1⟩, ⟨"two".toList, 8, 3, 2⟩] =
      [Segment.plain [],
       Segment.citationRef "[2]".toList ⟨"two".toList, 8, 3, 2⟩,
       Segment.plain " then ".toList,
       Segment.citationRef "[1]".toList ⟨"one".toList, 7, 2, 1⟩,
       Segment.plain []] := by
  refine ⟨?_, by decide, by decide⟩
  intro cits part ds c h1 h2
  simp [renderPart, h1, h2]

/-- Claim C4 witness: the general conjunct applied at the concrete marker
"[1]" and a single citation of index 1. -/
theorem c4_witness :
    renderPart [⟨"src".toList, 7, 2, 1⟩] "[1]".toList =
      Segment.citationRef "[1]".toList ⟨"src".toList, 7, 2, 1⟩ :=
  c4_matched_markers.1 [⟨"src".toList, 7, 2, 1⟩] "[1]".toList "1".toList
    ⟨"src".toList, 7, 2, 1⟩ (by decide) (by decide)

/-- Claim C8 counterexample: with two citations sharing index 1, the marker
"[1]" resolves to the FIRST of them (citations.find returns the first match),
not the last as the claim states. -/
theorem c8_counterexample :
    renderContent "[1]".toList [⟨"a".toList, 1, 1, 1⟩, ⟨"b".toList, 2, 2, 1⟩] =
      [Segment.plain [],
       Segment.citationRef "[1]".toList ⟨"a".toList, 1, 1, 1⟩,
       Segment.plain []] ∧
    renderContent "[1]".toList [⟨"a".toList, 1, 1, 1⟩, ⟨"b".toList, 2, 2, 1⟩] ≠
      [Segment.plain [],
       Segment.citationRef "[1]".toList ⟨"b".toList, 2, 2, 1⟩,
       Segment.plain []] := by
  decide

/-- Claim C8 (amended): when the citation list contains several citations
with the same index value, a marker "[N]" with N equal to that index resolves
to the FIRST citation in the list with that index (citations.find returns the
first match), and the renderer does not fail on duplicate indices. -/
theorem c8_first_match_wins :
    ∀ (pre : List Citation) (c : Citation) (post : List Citation)
      (part ds : List Char),
      findMarker part = some ds →
      (∀ x ∈ pre, x.index ≠ parseDigits ds) →
      c.index = parseDigits ds →
      renderPart (pre ++ c :: post) part = Segment.citationRef part c := by
  intro pre c post part ds h1 h2 h3
  have hfind : (pre ++ c :: post).find? (fun x => x.index == parseDigits ds) = some c := by
    induction pre with
    | nil =>
      rw [List.nil_append]
      exact List.find?_cons_of_pos _ (by simp [h3])
    | cons y ys ih =>
      rw [List.cons_append]
      rw [List.find?_cons_of_neg _ (by simp [h2 y (List.mem_cons_self y ys)])]
      exact ih fun x hx => h2 x (List.mem_cons_of_mem y hx)
  simp [renderPart, h1, hfind]

/-- Claim C8 witness: the amended theorem applied at marker "[1]" and the
duplicate-index list of the counterexample, resolving to the first citation. -/
theorem c8_witness :
    renderPart [⟨"a".toList, 1, 1, 1⟩, ⟨"b".toList, 2, 2, 1⟩] "[1]".toList =
      Segment.citationRef "[1]".toList ⟨"a".toList, 1, 1, 1⟩ :=
  c8_first_match_wins [] ⟨"a".toList, 1, 1, 1⟩ [⟨"b".toList, 2, 2, 1⟩]
    "[1]".toList "1".toList (by decide) (by decide) (by decide)

theorem splitGoF_ne_nil :
    ∀ (fuel : Nat) (acc l : List Char), splitGoF fuel acc l ≠ [] := by
  intro fuel
  induction fuel with
  | zero => intro acc l; simp [splitGoF]
  | succ n ih =>
    intro acc l
    cases l with
    | nil => simp [splitGoF]
    | cons c cs =>
      cases hm : matchMarker (c :: cs) with
      | none => simp only [splitGoF, hm]; exact ih (c :: acc) cs
      | some p => obtain ⟨ds, after⟩ := p; simp [splitGoF, hm]

/-- Claim C9: the citation renderer is total — on every content string and
citation list it returns a (nonempty) segment sequence, and every returned
segment is either a plain-text segment or a citation reference whose citation
comes from the input list; malformed or unmatched pieces degrade to plain
text. (The Lean embedding is a total computable function, mirroring the fact
that the JS function never throws.) -/
theorem c9_total_segments (content : List Char) (cits : List Citation) :
    renderContent content cits ≠ [] ∧
    ∀ seg ∈ renderContent content cits,
      (∃ t, seg = Segment.plain t) ∨
      ∃ t c, c ∈ cits ∧ seg = Segment.citationRef t c := by
  constructor
  · unfold renderContent
    by_cases h : cits.isEmpty = true
    · simp [h]
    · rw [if_neg h]
      intro hmap
      rw [List.map_eq_nil_iff] at hmap
      exact splitGoF_ne_nil _ _ _ hmap
  · intro seg hseg
    unfold renderContent at hseg
    by_cases h : cits.isEmpty = true
    · rw [if_pos h] at hseg
      simp at hseg
      exact Or.inl ⟨content, hseg⟩
    · rw [if_neg h] at hseg
      obtain ⟨part, hpart, hrp⟩ := List.mem_map.mp hseg
      cases h1 : findMarker part with
      | none =>
        rw [← hrp]
        exact Or.inl ⟨part, by simp [renderPart, h1]⟩
      | some ds =>
        cases h2 : cits.find? (fun x => x.index == parseDigits ds) with
        | none =>
          rw [← hrp]
          exact Or.inl ⟨part, by simp [renderPart, h1, h2]⟩
        | some c =>
          rw [← hrp]
          exact Or.inr ⟨part, c, List.mem_of_find?_eq_some h2,
            by simp [renderPart, h1, h2]⟩

/-- Claim C9 witness: the segment-shape conjunct applied at content "A[1]B"
with one citation and the concrete plain segment "A". -/
theorem c9_witness :
    (∃ t, Segment.plain "A".toList = Segment.plain t) ∨
    ∃ t c, c ∈ [(⟨"src".toList, 7, 2, 1⟩ : Citation)] ∧
      Segment.plain "A".toList = Segment.citationRef t c :=
  (c9_total_segments "A[1]B".toList [⟨"src".toList, 7, 2, 1⟩]).2
    (Segment.plain "A".toList) (by decide)

/-- Result of one `documentApi.getStatus` call: the resolved status string,
or a rejection (network/parse failure). -/
inductive FetchResult where
  | ok (status : String)
  | fail
deriving DecidableEq

/-- Observable trace of one poller run: the times (ms since start) at which a
fetch was issued, the statuses at which the completion action
(`queryClient.invalidateQueries`, the role of `onTerminal`) fired, and how
many times a fetch error was surfaced (`setError`). -/
structure PollTrace where
  fetchTimes : List Nat
  completions : List String
  errors : Nat
deriving DecidableEq

/-- `pollDocumentStatus` of the source (DocumentList panel): fetch the
status; if it is exactly "pending", re-schedule itself with
`setTimeout(..., interval)`; otherwise invalidate the documents query (the
completion action) and stop; a rejected fetch is caught once by `setError`
and nothing further is scheduled. The list holds the results of the
successive fetches; the trace records a fetch at time `t` even when the
result list is exhausted (the model observes a finite prefix of the run). -/
def pollGo (interval : Nat) : List FetchResult → Nat → PollTrace
  | [], _ => ⟨[], [], 0⟩
  | FetchResult.fail :: _, t => ⟨[t], [], 1⟩
  | FetchResult.ok s :: rest, t =>
    if s = "pending" then
      let tr := pollGo interval rest (t + interval)
      ⟨t :: tr.fetchTimes, tr.completions, tr.errors⟩
    else ⟨[t], [s], 0⟩

/-- The source poller run from time 0 with its hard-coded 2000 ms interval. -/
def pollDocumentStatus (results : List FetchResult) : PollTrace :=
  pollGo 2000 results 0

/-- Claim C2 (code bug evaluation): fetching the status "processing" stops
the poller — the source only continues on exactly "pending" — so the run
[processing, processed] performs a single fetch at t = 0 and fires the
completion action at the non-terminal status "processing", never observing
"processed"; the claim (and the repository's API documentation, which lists
`processing` as an in-progress state) requires polling to continue there. -/
theorem c2_processing_treated_as_terminal :
    pollDocumentStatus [FetchResult.ok "processing", FetchResult.ok "processed"] =
      ⟨[0], ["processing"], 0⟩ := by
  decide

/-- Claim C5: a failed fetch surfaces the error exactly once (one `setError`
call) and schedules no further fetches — the failing attempt is the last
fetch of the run and no completion action fires. -/
theorem c5_fetch_error_stops (interval t : Nat) (rest : List FetchResult) :
    pollGo interval (FetchResult.fail :: rest) t =
      ⟨[t], [], 1⟩ := by
  rfl

/-- Claim C6: for the fetch-result sequence pending, pending, processed, the
poller performs exactly 3 fetches — at time 0, at one default interval
(2000 ms) and at two intervals (4000 ms) — fires the completion action
exactly once, at the "processed" status, and schedules no further fetch. -/
theorem c6_three_fetches :
    pollDocumentStatus
        [FetchResult.ok "pending", FetchResult.ok "pending",
         FetchResult.ok "processed"] =
      ⟨[0, 2000, 4000], ["processed"], 0⟩ := by
  decide

/-- Modelled from the spec: `startPolling` with a `stop()` handle is absent
from src — the source only has the self-rescheduling `setTimeout` poller
`pollDocumentStatus` with no cancellation. Per the spec's contract,
`startPolling(documentId, fetchStatus, onTerminal, intervalMs = 2000)`
exposes a `stop()` handle; calling it clears the pending timer so no further
fetch occurs, non-terminal statuses are `pending`/`processing`, and a
terminal status fires `onTerminal` and stops. `stopBudget` counts the
fetches still allowed before `stop()` is called (the stop happens after that
many completed fetches and before the next scheduled one fires). -/
def startPollGo (interval : Nat) : List FetchResult → Nat → Nat → PollTrace
  | _, _, 0 => ⟨[], [], 0⟩
  | [], _, _ => ⟨[], [], 0⟩
  | FetchResult.fail :: _, t, _ => ⟨[t], [], 1⟩
  | FetchResult.ok s :: rest, t, k + 1 =>
    if s = "pending" ∨ s = "processing" then
      let tr := startPollGo interval rest (t + interval) k
      ⟨t :: tr.fetchTimes, tr.completions, tr.errors⟩
    else ⟨[t], [s], 0⟩

/-- Modelled from the spec: a `startPolling` run from time 0 with the default
2000 ms interval, stopped via `stop()` after `stopBudget` fetches. -/
def startPolling (results : List FetchResult) (stopBudget : Nat) : PollTrace :=
  startPollGo 2000 results 0 stopBudget

/-- Claim C7: calling `stop()` after the first fetch but before the second
scheduled fetch fires (stop budget 1) prevents the second fetch from ever
occurring and `onTerminal` is never called, whatever results later fetches
would have produced; the first status being non-terminal is what makes a
second fetch due at all. -/
theorem c7_stop_prevents_second_fetch (s : String) (rest : List FetchResult)
    (h : s = "pending" ∨ s = "processing") :
    startPolling (FetchResult.ok s :: rest) 1 = ⟨[0], [], 0⟩ := by
  unfold startPolling startPollGo
  rw [if_pos h]
  cases rest with
  | nil => rfl
  | cons r rs => cases r <;> rfl

/-- Claim C7 witness: the theorem applied to the concrete run
[pending, processed] stopped after the first fetch. -/
theorem c7_witness :
    startPolling [FetchResult.ok "pending", FetchResult.ok "processed"] 1 =
      ⟨[0], [], 0⟩ :=
  c7_stop_prevents_second_fetch "pending" [FetchResult.ok "processed"]
    (Or.inl rfl)

/-- The JS `String.replace` with a STRING pattern (renderMessageContent of
MessageList.tsx): replace only the first occurrence of `pat`; when `pat` does
not occur, return the input unchanged; an empty `pat` matches at the start. -/
def replaceFirst : List Char → List Char → List Char → List Char
  | [], pat, repl => if pat.isEmpty then repl else []
  | c :: cs, pat, repl =>
    if pat.isPrefixOf (c :: cs) then repl ++ (c :: cs).drop pat.length
    else c :: replaceFirst cs pat repl

/-- The marker string `[${index + 1}]` built for the citation at array
position `k` in renderMessageContent. -/
def citationMark (k : Nat) : List Char :=
  '[' :: (toString (k + 1)).toList ++ [']']

/-- Opening part of the interactive span template of renderMessageContent, up
to the interpolated citation value. -/
def spanOpen : List Char :=
  ("<span \n          class=\"citation-mark text-blue-500 cursor-pointer hover:text-blue-700\" \n          data-citation=\"").toList

/-- The span built for one citation: the template literal of
renderMessageContent with the citation value and the marker interpolated. -/
def citationSpan (citationStr mark : List Char) : List Char :=
  spanOpen ++ citationStr ++ ("\"\n        >").toList ++ mark ++ "</span>".toList

/-- The `citations.forEach((citation, index) => ...)` loop of
renderMessageContent: for position `k`, replace (once) the marker `[k+1]` in
the accumulated content by the citation span. `citations` holds each
citation value as the string it interpolates to. -/
def applyCits : List Char → List (List Char) → Nat → List Char
  | content, [], _ => content
  | content, cit :: rest, k =>
    applyCits (replaceFirst content (citationMark k) (citationSpan cit (citationMark k)))
      rest (k + 1)

/-- `renderMessageContent` of MessageList.tsx, flattened to the text it
produces: with no citations the content is returned as-is; otherwise each
position-indexed marker is replaced once by its span. -/
def renderMessageContent (content : List Char) (citations : List (List Char)) : List Char :=
  if citations.isEmpty then content else applyCits content citations 0

theorem isPrefixOf_append_self :
    ∀ (p b : List Char), p.isPrefixOf (p ++ b) = true := by
  intro p
  induction p with
  | nil => intro b; cases b <;> rfl
  | cons x xs ih => intro b; simp [List.isPrefixOf, ih]

theorem replaceFirst_spec :
    ∀ (a pat b repl : List Char), pat ≠ [] →
      (∀ i, i < a.length → pat.isPrefixOf ((a ++ pat ++ b).drop i) = false) →
      replaceFirst (a ++ pat ++ b) pat repl = a ++ repl ++ b := by
  intro a
  induction a with
  | nil =>
    intro pat b repl hpat _
    simp only [List.nil_append]
    cases pat with
    | nil => exact absurd rfl hpat
    | cons p ps =>
      simp only [List.cons_append, replaceFirst, List.append_eq]
      have hpre : (p :: ps).isPrefixOf (p :: (ps ++ b)) = true := by
        rw [← List.cons_append]
        exact isPrefixOf_append_self (p :: ps) b
      rw [if_pos hpre]
      have hdrop : (p :: (ps ++ b)).drop (p :: ps).length = b := by
        rw [← List.cons_append]
        exact List.drop_left (p :: ps) b
      rw [hdrop]
  | cons c a' ih =>
    intro pat b repl hpat hocc
    have h0 : pat.isPrefixOf (c :: (a' ++ pat ++ b)) = false := by
      have h := hocc 0 (by simp)
      rw [List.drop_zero] at h
      simpa only [List.cons_append] using h
    have hshift : ∀ i, i < a'.length →
        pat.isPrefixOf ((a' ++ pat ++ b).drop i) = false := by
      intro i hi
      have h := hocc (i + 1) (by simpa using Nat.succ_lt_succ hi)
      simpa only [List.cons_append, List.drop_succ_cons] using h
    simp only [List.cons_append, replaceFirst, List.append_eq]
    rw [if_neg (ne_true_of_eq_false h0)]
    rw [ih pat b repl hpat hshift]

/-- Claim C10: in the replace-based renderer variant, for each citation at
array position k only the FIRST occurrence of the marker "[k+1]" in the
content is converted into a citation span — String.replace with a string
pattern replaces a single occurrence, leaving any later occurrence of the
same marker in place as plain text. The general conjunct: replacing `pat` in
`a ++ pat ++ b`, where no occurrence of `pat` starts inside `a`, rewrites
only that first occurrence and keeps `b` (with any further occurrences)
verbatim; the second conjunct runs renderMessageContent on "x[1]y[1]z" with
one citation: only the first "[1]" becomes a span, the second stays plain. -/
theorem c10_replace_first_only :
    (∀ (a pat b repl : List Char), pat ≠ [] →
      (∀ i, i < a.length → pat.isPrefixOf ((a ++ pat ++ b).drop i) = false) →
      replaceFirst (a ++ pat ++ b) pat repl = a ++ repl ++ b) ∧
    renderMessageContent "x[1]y[1]z".toList ["CITATION".toList] =
      "x".toList ++ citationSpan "CITATION".toList (citationMark 0) ++
        "y[1]z".toList := by
  refine ⟨replaceFirst_spec, ?_⟩
  decide

/-- Claim C10 witness: the general conjunct applied at the concrete
decomposition "x" ++ "[1]" ++ "y[1]z" with replacement "R". -/
theorem c10_witness :
    replaceFirst ("x".toList ++ "[1]".toList ++ "y[1]z".toList)
        "[1]".toList "R".toList =
      "x".toList ++ "R".toList ++ "y[1]z".toList :=
  c10_replace_first_only.1 "x".toList "[1]".toList "y[1]z".toList "R".toList
    (by decide) (by decide)

end AiChat
